import Mathlib

/-!
Verification of the deterministic candidate-job matching engine in
`src/mastra/tools/role-matcher.ts`.

Text is modelled as `List Char`.  JavaScript regular-expression tests used by
the matcher are alternations of literals, possibly separated by `\s*`; they are
embedded as explicit substring scans with leftmost-match and greedy/backtracking
behaviour reproduced where it can matter.  `String.prototype.toLowerCase` is
modelled by ASCII lowering (`Char.toLower`), which agrees with JavaScript on the
ASCII text the matcher manipulates.
-/

namespace RoleMatcher

abbrev Str := List Char

def lit (s : String) : Str := s.toList

/-- JavaScript `\s` on the character set relevant here. -/
def isWs (c : Char) : Bool :=
  c = ' ' || c = '\t' || c = '\n' || c = '\r' || c = '\x0b' || c = '\x0c'

def lowerStr (s : Str) : Str := s.map Char.toLower

def digitChar (c : Char) : Bool := '0' ≤ c && c ≤ '9'

/-- Characters kept by `replace(/[^a-z0-9+\.\/#\-\s]/g, ' ')`. -/
def keptChar (c : Char) : Bool :=
  ('a' ≤ c && c ≤ 'z') || digitChar c ||
  c = '+' || c = '.' || c = '/' || c = '#' || c = '-' || isWs c

def normalizeChars (s : Str) : Str := s.map (fun c => if keptChar c then c else ' ')

/-- `s.includes(pat)`: `pat` occurs as a contiguous substring of `s`. -/
def containsSubstr (s pat : Str) : Bool :=
  match s with
  | [] => pat.isPrefixOf []
  | _ :: rest => pat.isPrefixOf s || containsSubstr rest pat

def dropWs (s : Str) : Str := s.dropWhile isWs

/-- Match a sequence of literal parts separated by `\s*` at the start of `s`.
Each part after the first begins with a non-whitespace character, so the greedy
whitespace skip is forced. -/
def matchPartsAt : List Str → Str → Bool
  | [], _ => true
  | p :: ps, s => p.isPrefixOf s && matchPartsAt ps (dropWs (s.drop p.length))

/-- `.test` of an alternation branch `p₁\s*p₂\s*…` anywhere in `s`. -/
def containsParts (s : Str) (parts : List Str) : Bool :=
  match s with
  | [] => matchPartsAt parts []
  | _ :: rest => matchPartsAt parts s || containsParts rest parts

/-- `replace(/\s+/g, ' ')`: collapse every whitespace run to one space. -/
def collapseWsAux (prevWs : Bool) : Str → Str
  | [] => []
  | c :: rest =>
    if isWs c then
      if prevWs then collapseWsAux true rest else ' ' :: collapseWsAux true rest
    else c :: collapseWsAux false rest

def collapseWs (s : Str) : Str := collapseWsAux false s

/-- `String.prototype.trim`. -/
def trimStr (s : Str) : Str := ((s.dropWhile isWs).reverse.dropWhile isWs).reverse

/-- Collapse every `'\n'` run to a single `'\n'` (first step of `split(/\n+/)`). -/
def collapseNlAux (prevNl : Bool) : Str → Str
  | [] => []
  | c :: rest =>
    if c = '\n' then
      if prevNl then collapseNlAux true rest else '\n' :: collapseNlAux true rest
    else c :: collapseNlAux false rest

def splitOnChar (sep : Char) : Str → List Str
  | [] => [[]]
  | c :: rest =>
    let r := splitOnChar sep rest
    if c = sep then [] :: r
    else
      match r with
      | [] => [[c]]
      | seg :: segs => (c :: seg) :: segs

/-- `text.split(/\n+/)`: runs of newlines act as one separator. -/
def splitOnNewlineRuns (s : Str) : List Str := splitOnChar '\n' (collapseNlAux false s)

/-- After the 1-2 digits of `/(\d{1,2})\+?\s*(?:years?|yrs?)/`: optional `'+'`,
whitespace, then a `year`/`yr` literal. -/
def yearsSuffix (s : Str) : Bool :=
  let s1 := match s with
    | '+' :: rest => rest
    | _ => s
  let s2 := dropWs s1
  (lit ("year")).isPrefixOf s2 || (lit ("yr")).isPrefixOf s2

def digitVal (c : Char) : Nat := c.toNat - ('0').toNat

/-- Try `/(\d{1,2})\+?\s*(?:years?|yrs?)/` at the start of `s`: two digits
greedily, backtracking to one. -/
def matchJdYearsAt : Str → Option Nat
  | [] => none
  | c1 :: rest1 =>
    if digitChar c1 then
      match rest1 with
      | c2 :: rest2 =>
        if digitChar c2 then
          if yearsSuffix rest2 then some (10 * digitVal c1 + digitVal c2)
          else if yearsSuffix rest1 then some (digitVal c1)
          else none
        else if yearsSuffix rest1 then some (digitVal c1) else none
      | [] => none
    else none

/-- Leftmost match of the JD years pattern (`String.prototype.match`). -/
def findJdYears : Str → Option Nat
  | [] => none
  | c :: rest =>
    match matchJdYearsAt (c :: rest) with
    | some n => some n
    | none => findJdYears rest

def digitsVal (ds : Str) : Nat := ds.foldl (fun acc c => 10 * acc + digitVal c) 0

/-- The `parseFloat`ed candidate experience, kept exact as
`num / den` with `den` the power of ten given by the fraction digits. -/
structure ScaledYears where
  num : Nat
  den : Nat
deriving Repr, DecidableEq

/-- `\s*(?:years?|yrs?)` for the candidate-experience pattern (no `'+'`). -/
def candSuffix (s : Str) : Bool :=
  let s2 := dropWs s
  (lit ("year")).isPrefixOf s2 || (lit ("yr")).isPrefixOf s2

/-- After the integer digits of `/(\d{1,2}(?:\.\d+)?)\s*(?:years?|yrs?)/`:
greedy optional fraction, backtracking to no fraction. -/
def matchFracThen (intVal : Nat) (s : Str) : Option ScaledYears :=
  match s with
  | '.' :: rest =>
    let ds := rest.takeWhile digitChar
    if ds.isEmpty then
      if candSuffix s then some ⟨intVal, 1⟩ else none
    else
      if candSuffix (rest.dropWhile digitChar) then
        some ⟨intVal * 10 ^ ds.length + digitsVal ds, 10 ^ ds.length⟩
      else if candSuffix s then some ⟨intVal, 1⟩
      else none
  | _ => if candSuffix s then some ⟨intVal, 1⟩ else none

def matchCandYearsAt : Str → Option ScaledYears
  | [] => none
  | c1 :: rest1 =>
    if digitChar c1 then
      match rest1 with
      | c2 :: rest2 =>
        if digitChar c2 then
          match matchFracThen (10 * digitVal c1 + digitVal c2) rest2 with
          | some q => some q
          | none => matchFracThen (digitVal c1) rest1
        else matchFracThen (digitVal c1) rest1
      | [] => matchFracThen (digitVal c1) []
    else none

/-- Leftmost match of `/(\d{1,2}(?:\.\d+)?)\s*(?:years?|yrs?)/`. -/
def findCandYears : Str → Option ScaledYears
  | [] => none
  | c :: rest =>
    match matchCandYearsAt (c :: rest) with
    | some q => some q
    | none => findCandYears rest

/-- The fixed technology vocabulary of `role-matcher.ts`, in source order. -/
def knownTech : List Str :=
  (["react", "next.js", "nextjs", "typescript", "javascript", "node", "node.js",
    "python", "django", "flask", "fastapi", "java", "spring", "spring boot",
    "postgres", "postgresql", "mysql", "mongodb", "redis", "kafka", "rabbitmq",
    "docker", "kubernetes", "helm", "terraform", "ansible", "aws", "azure", "gcp",
    "graphql", "rest", "api", "microservices", "grpc", "react native", "vue", "angular",
    "go", "golang", "ruby", "rails", "php", "laravel", "elixir", "phoenix",
    "pandas", "numpy", "pytorch", "tensorflow", "ml", "machine learning", "data science",
    "airflow", "dbt", "snowflake"]).map String.toList

/-- `/must\s*have|requirements|required|qualification/.test(line)`. -/
def testRequiredLine (s : Str) : Bool :=
  containsParts s [lit ("must"), lit ("have")] ||
  containsSubstr s (lit ("requirements")) ||
  containsSubstr s (lit ("required")) ||
  containsSubstr s (lit ("qualification"))

/-- `/frontend|front-end|ui/.test(s)`. -/
def testFrontend (s : Str) : Bool :=
  containsSubstr s (lit ("frontend")) || containsSubstr s (lit ("front-end")) ||
  containsSubstr s (lit ("ui"))

/-- `/backend|back-end|server/.test(s)`. -/
def testBackend (s : Str) : Bool :=
  containsSubstr s (lit ("backend")) || containsSubstr s (lit ("back-end")) ||
  containsSubstr s (lit ("server"))

/-- `/full\s*stack/.test(s)`. -/
def testFullStack (s : Str) : Bool :=
  containsParts s [lit ("full"), lit ("stack")]

/-- `/(full\s*stack|fullstack|full-stack)/.test(s)`. -/
def testFullStackRole (s : Str) : Bool :=
  containsParts s [lit ("full"), lit ("stack")] ||
  containsSubstr s (lit ("fullstack")) || containsSubstr s (lit ("full-stack"))

/-- `/data|ml|machine\s*learning|ai/.test(s)`. -/
def testData (s : Str) : Bool :=
  containsSubstr s (lit ("data")) || containsSubstr s (lit ("ml")) ||
  containsParts s [lit ("machine"), lit ("learning")] || containsSubstr s (lit ("ai"))

/-- `/devops|sre|site\s*reliability/.test(s)`. -/
def testDevops (s : Str) : Bool :=
  containsSubstr s (lit ("devops")) || containsSubstr s (lit ("sre")) ||
  containsParts s [lit ("site"), lit ("reliability")]

/-- `/developer|engineer|architect|manager/.test(s)`. -/
def testRoleWord (s : Str) : Bool :=
  containsSubstr s (lit ("developer")) || containsSubstr s (lit ("engineer")) ||
  containsSubstr s (lit ("architect")) || containsSubstr s (lit ("manager"))

/-- `/bachelor|bs|b\.tech|be/.test(s)` (JD side of the bachelor check). -/
def testJdBachelor (s : Str) : Bool :=
  containsSubstr s (lit ("bachelor")) || containsSubstr s (lit ("bs")) ||
  containsSubstr s (lit ("b.tech")) || containsSubstr s (lit ("be"))

/-- `/bachelor|b\.tech|be/.test(s)` (candidate side of the bachelor check). -/
def testEduBachelor (s : Str) : Bool :=
  containsSubstr s (lit ("bachelor")) ||
  containsSubstr s (lit ("b.tech")) || containsSubstr s (lit ("be"))

/-- `/master|ms|mba/.test(s)`. -/
def testMaster (s : Str) : Bool :=
  containsSubstr s (lit ("master")) || containsSubstr s (lit ("ms")) ||
  containsSubstr s (lit ("mba"))

structure JdConstraints where
  requiredSkills : List Str
  minYears : Option Nat
  roleKeywords : List Str
deriving Repr, DecidableEq

/-- Add to a JavaScript `Set` (insertion order kept, duplicates ignored). -/
def addUnique (l : List Str) (x : Str) : List Str := if x ∈ l then l else l ++ [x]

/-- Scan the vocabulary against one required-block line, extending the set. -/
def addTechFrom (acc : List Str) (block : Str) : List Str :=
  knownTech.foldl (fun a t => if containsSubstr block t then addUnique a t else a) acc

/-- `extractJdConstraints` of `role-matcher.ts`. -/
def extractJdConstraints (jobDesc : Str) : JdConstraints :=
  let normalized := normalizeChars (lowerStr jobDesc)
  let minYears := findJdYears normalized
  let requiredBlocks := (splitOnNewlineRuns normalized).filter testRequiredLine
  let fromBlocks := requiredBlocks.foldl addTechFrom []
  let requiredSkills := if fromBlocks.isEmpty then addTechFrom [] normalized else fromBlocks
  let roleKeywords :=
    (if testFrontend normalized then [lit ("frontend")] else []) ++
    (if testBackend normalized then [lit ("backend")] else []) ++
    (if testFullStack normalized then [lit ("full stack")] else []) ++
    (if testData normalized then [lit ("data")] else []) ++
    (if testDevops normalized then [lit ("devops")] else [])
  { requiredSkills := requiredSkills, minYears := minYears, roleKeywords := roleKeywords }

/-- `Candidate` of `resumeStore.ts`: every field defaults to empty. -/
structure Candidate where
  name : Str := []
  email : Str := []
  skills : List Str := []
  total_experience : Str := []
  last_role : Str := []
  education : Str := []
deriving Repr, DecidableEq

/-- `s.toLowerCase().replace(/\s+/g, ' ').trim()`. -/
def normSkill (s : Str) : Str := trimStr (collapseWs (lowerStr s))

/-- Synonym folding toward the canonical token. -/
def foldSyn (t : Str) : Str :=
  if t = lit ("node") then lit ("node.js")
  else if t = lit ("postgres") then lit ("postgresql")
  else t

/-- `computeMissingRequiredSkills` of `role-matcher.ts`: the candidate's skill
set is normalized but not synonym-folded; folding is applied to each required
token before the membership test. -/
def computeMissingRequiredSkills (requiredSkills : List Str) (c : Candidate) : List Str :=
  let candSkills := c.skills.map normSkill
  requiredSkills.filter (fun req => !(candSkills.contains (foldSyn (normSkill req))))

/-- Experience-alignment bonus.  The source compares the exact values
`candYears >= jdYears`, `|candYears - jdYears| <= 1`, `<= 2`; here the
comparisons are cross-multiplied by the positive denominator. -/
def expBonus (jdYears : Option Nat) (candYears : Option ScaledYears) : ℤ :=
  match jdYears, candYears with
  | some j, some cy =>
    let d : ℤ := (cy.num : ℤ) - (j : ℤ) * (cy.den : ℤ)
    if 0 ≤ d then 10
    else if d.natAbs ≤ cy.den then 6
    else if d.natAbs ≤ 2 * cy.den then 3
    else 0
  | _, _ => 0

/-- The JD-mentioned vocabulary tokens (a JavaScript `Set`, insertion order). -/
def jdSkillsSetOf (jdCleanText : Str) : List Str :=
  knownTech.foldl (fun a t => if containsSubstr jdCleanText t then addUnique a t else a) []

/-- The candidate's normalized, synonym-folded skill set. -/
def candSkillsSetOf (c : Candidate) : List Str :=
  c.skills.foldl (fun a s => addUnique a (foldSyn (normSkill s))) []

def overlapCount (jdSet candSet : List Str) : Nat :=
  (jdSet.filter (fun t => candSet.contains t)).length

def skillBonus (overlap : Nat) : ℤ :=
  if 0 < overlap then min 35 ((overlap : ℤ) * 8) else 0

def frontendIndicators : List Str :=
  (["react", "next.js", "nextjs", "vue", "angular"]).map String.toList

def backendIndicators : List Str :=
  (["node.js", "django", "spring", "rails", "go", "golang", "php", "laravel",
    "flask", "fastapi"]).map String.toList

def hasFrontendSkill (candSet : List Str) : Bool :=
  frontendIndicators.any (fun t => candSet.contains t)

def hasBackendSkill (candSet : List Str) : Bool :=
  backendIndicators.any (fun t => candSet.contains t)

/-- Role-alignment bonuses of the scorer, in source order. -/
def roleBonus (jdCleanText candRole : Str) (candSet : List Str) : ℤ :=
  (if testRoleWord jdCleanText && testRoleWord candRole then 6 else 0) +
  (if testFrontend jdCleanText && (testFrontend candRole || hasFrontendSkill candSet)
    then 6 else 0) +
  (if testBackend jdCleanText && (testBackend candRole || hasBackendSkill candSet)
    then 6 else 0) +
  (if testFullStackRole jdCleanText &&
      (testFullStackRole candRole || (hasFrontendSkill candSet && hasBackendSkill candSet))
    then 10 else 0) +
  (if testData jdCleanText && testData candRole then 6 else 0)

/-- Education-hint bonuses. -/
def eduBonus (jdCleanText candEdu : Str) : ℤ :=
  (if testJdBachelor jdCleanText && testEduBachelor candEdu then 3 else 0) +
  (if testMaster jdCleanText && testMaster candEdu then 3 else 0)

/-- Missing-must-have penalty: subtract, then hard-cap at 45. -/
def missingStage (missing : List Str) (s : ℤ) : ℤ :=
  if 0 < missing.length then min (s - min 25 ((missing.length : ℤ) * 8)) 45 else s

/-- The `roleMatched` disjunction of the role-focus enforcement block. -/
def roleFocusMet (roleKeywords : List Str) (candRole : Str) (candSet : List Str) : Bool :=
  (roleKeywords.contains (lit ("frontend")) && (testFrontend candRole || hasFrontendSkill candSet)) ||
  (roleKeywords.contains (lit ("backend")) && (testBackend candRole || hasBackendSkill candSet)) ||
  (roleKeywords.contains (lit ("full stack")) &&
    (testFullStackRole candRole || (hasFrontendSkill candSet && hasBackendSkill candSet))) ||
  (roleKeywords.contains (lit ("data")) && testData candRole) ||
  (roleKeywords.contains (lit ("devops")) && testDevops candRole)

/-- Role-focus enforcement: subtract 20 and cap at 50 when unmet. -/
def roleFocusStage (roleKeywords : List Str) (met : Bool) (s : ℤ) : ℤ :=
  if 0 < roleKeywords.length then (if met then s else min (s - 20) 50) else s

/-- Strict years enforcement: subtract 20 and cap at 55 when
`candYears < jdYears - 0.5` (cross-multiplied by `2 * den`). -/
def yearsStage (jdYears : Option Nat) (candYears : Option ScaledYears) (s : ℤ) : ℤ :=
  match jdYears, candYears with
  | some j, some cy =>
    if 2 * (cy.num : ℤ) < 2 * (j : ℤ) * (cy.den : ℤ) - (cy.den : ℤ) then min (s - 20) 55
    else s
  | _, _ => s

/-- `Math.max(0, Math.min(100, Math.round(score)))`; the running score is an
integer throughout, so rounding is the identity. -/
def clampScore (s : ℤ) : ℤ := max 0 (min 100 s)

/-- `calculateMatchPercentage` of `role-matcher.ts`. -/
def calculateMatchPercentage (jobDesc : Str) (c : Candidate) : ℤ :=
  let jdCleanText := normalizeChars (lowerStr jobDesc)
  let candRole := lowerStr c.last_role
  let candEdu := lowerStr c.education
  let constraints := extractJdConstraints jobDesc
  let missing := computeMissingRequiredSkills constraints.requiredSkills c
  let jdYears := findJdYears jdCleanText
  let candYears := findCandYears (lowerStr c.total_experience)
  let candSet := candSkillsSetOf c
  let jdSet := jdSkillsSetOf jdCleanText
  let s1 : ℤ := 40 + expBonus jdYears candYears
  let s2 := s1 + skillBonus (overlapCount jdSet candSet)
  let s3 := s2 + roleBonus jdCleanText candRole candSet
  let s4 := s3 + eduBonus jdCleanText candEdu
  let s5 := missingStage missing s4
  let s6 := roleFocusStage constraints.roleKeywords
    (roleFocusMet constraints.roleKeywords candRole candSet) s5
  let s7 := yearsStage jdYears candYears s6
  clampScore s7

/-- `arr.join(sep)` for a list of strings. -/
def joinSep (sep : Str) : List Str → Str
  | [] => []
  | [x] => x
  | x :: y :: t => x ++ sep ++ joinSep sep (y :: t)

/-- The explanation pieces, in source order (a piece is pushed only when its
source text is non-empty / the missing list is non-empty). -/
def explanationPieces (c : Candidate) (jobDescription : Str) : List Str :=
  let topSkills := joinSep (lit (", ")) (c.skills.take 3)
  let missing := computeMissingRequiredSkills
    (extractJdConstraints jobDescription).requiredSkills c
  (if c.last_role = [] then [] else [lit ("Role: ") ++ c.last_role]) ++
  (if topSkills = [] then [] else [lit ("Skills: ") ++ topSkills]) ++
  (if c.total_experience = [] then [] else [lit ("Experience: ") ++ c.total_experience]) ++
  (if c.education = [] then [] else [lit ("Education: ") ++ c.education]) ++
  (if missing = [] then []
   else [lit ("Missing required: ") ++ joinSep (lit (", ")) (missing.take 3) ++
      (if 3 < missing.length then lit ("…") else [])])

/-- `generateExplanation` of `role-matcher.ts`.  The `matchPercentage`
argument is accepted (as in the source) but never read. -/
def generateExplanation (c : Candidate) (matchPercentage : ℤ) (jobDescription : Str) : Str :=
  let pieces := explanationPieces c jobDescription
  if pieces = [] then
    (if c.name = [] then lit ("Candidate") else c.name) ++ lit (" appears relevant.")
  else joinSep (lit (" • ")) pieces

structure MatchResult where
  candidateIndex : Nat
  matchPercentage : ℤ
  explanation : Str
deriving Repr, DecidableEq

/-- The heuristic scoring pass of `run`, one result per candidate in input
order (`candidates.map((candidate, index) => …)`). -/
def scoreAll (jd : Str) (cands : List Candidate) : List MatchResult :=
  cands.enum.map (fun p =>
    { candidateIndex := p.1
      matchPercentage := calculateMatchPercentage jd p.2
      explanation := generateExplanation p.2 0 jd })

/-- Insert before the first strictly smaller score: the unique stable
descending order, as produced by `Array.prototype.sort` (stable per ES2019)
with comparator `(a, b) => b.matchPercentage - a.matchPercentage`. -/
def insertDescMR (x : MatchResult) : List MatchResult → List MatchResult
  | [] => [x]
  | y :: ys =>
    if y.matchPercentage < x.matchPercentage then x :: y :: ys
    else y :: insertDescMR x ys

def sortDescMR (l : List MatchResult) : List MatchResult :=
  l.foldl (fun acc x => insertDescMR x acc) []

def defaultCandidate : Candidate := {}

/-- `match.explanation = generateExplanation(candidates[match.candidateIndex],
match.matchPercentage, jobDescription)`. -/
def regenerate (jd : Str) (cands : List Candidate) (m : MatchResult) : MatchResult :=
  { m with explanation :=
      generateExplanation (cands.getD m.candidateIndex defaultCandidate) m.matchPercentage jd }

/-- The deterministic path of `run` after input validation: score, sort by
descending percentage, then regenerate each explanation from the final score. -/
def matchAllCore (jd : Str) (cands : List Candidate) : List MatchResult :=
  (sortDescMR (scoreAll jd cands)).map (regenerate jd cands)

/-- `run` of `role-matcher.ts` on its deterministic path, with the parsed
candidate store passed explicitly. -/
def run (jobDescription : Str) (candidates : List Candidate) :
    Except Str (List MatchResult) :=
  if trimStr jobDescription = [] then
    Except.error (lit ("Job description is required for matching."))
  else if candidates = [] then
    Except.error (lit ("No resumes found. Please run the Resume Parser Agent first."))
  else
    Except.ok (matchAllCore jobDescription candidates)

/-- The descending-score relation the ranking is sorted by. -/
def scoreGE (a b : MatchResult) : Prop := b.matchPercentage ≤ a.matchPercentage

/-- Results whose final score equals `p` (used to state sort stability). -/
def scoreIs (p : ℤ) (r : MatchResult) : Bool := r.matchPercentage == p

/-! ### Concrete inputs used by witnesses and counterexamples -/

def backendOnlyJd : Str := lit ("backend developer needed")

def frontendOnlyCand : Candidate :=
  { last_role := lit ("Frontend Developer"), skills := [lit ("React")] }

def scenarioAJd : Str := lit ("5+ years React developer, must have: react, typescript")

def scenarioACand : Candidate :=
  { skills := [lit ("React"), lit ("TypeScript"), lit ("Node.js")],
    total_experience := lit ("6 years"), last_role := lit ("Frontend Developer") }

def scenarioCJd : Str := lit ("Python, Django, PostgreSQL")

def bothCanonicalCand : Candidate := { skills := [lit ("Node.js"), lit ("PostgreSQL")] }

def nodePostgresReqs : List Str :=
  [lit ("node"), lit ("node.js"), lit ("postgres"), lit ("postgresql")]

def bulletCand : Candidate :=
  { last_role := lit ("Dev"), total_experience := lit ("2 years") }

def manyTechJd : Str := lit ("react typescript python django docker")

/-! ### Score-stage lemmas -/

lemma clampScore_nonneg (s : ℤ) : 0 ≤ clampScore s := le_max_left 0 _

lemma clampScore_le_100 (s : ℤ) : clampScore s ≤ 100 :=
  max_le (by norm_num) (min_le_left 100 s)

lemma clampScore_le_of {s c : ℤ} (h : s ≤ c) (h0 : 0 ≤ c) : clampScore s ≤ c :=
  max_le h0 (le_trans (min_le_right 100 s) h)

lemma yearsStage_le (j : Option Nat) (cq : Option ScaledYears) (s : ℤ) :
    yearsStage j cq s ≤ s := by
  cases j with
  | none => simp [yearsStage]
  | some jv =>
    cases cq with
    | none => simp [yearsStage]
    | some cv =>
      simp only [yearsStage]
      split
      · exact le_trans (min_le_left _ _) (by omega)
      · exact le_refl s

lemma roleFocusStage_le (k : List Str) (met : Bool) (s : ℤ) : roleFocusStage k met s ≤ s := by
  unfold roleFocusStage
  split
  · split
    · exact le_refl s
    · exact le_trans (min_le_left _ _) (by omega)
  · exact le_refl s

lemma roleFocusStage_false_le_50 {k : List Str} (h : k ≠ []) (s : ℤ) :
    roleFocusStage k false s ≤ 50 := by
  unfold roleFocusStage
  rw [if_pos (List.length_pos.mpr h), if_neg (by simp)]
  exact min_le_right _ _

lemma missingStage_le_45 {m : List Str} (h : m ≠ []) (s : ℤ) : missingStage m s ≤ 45 := by
  unfold missingStage
  rw [if_pos (List.length_pos.mpr h)]
  exact min_le_right _ _

/-! ### Claim C1 -/

/-- C1: whenever `computeMissingRequiredSkills` is non-empty for a candidate,
`calculateMatchPercentage` never exceeds 45, however large the additive
bonuses are. -/
theorem missing_required_caps_score_at_45 (jd : Str) (c : Candidate)
    (h : computeMissingRequiredSkills (extractJdConstraints jd).requiredSkills c ≠ []) :
    calculateMatchPercentage jd c ≤ 45 := by
  simp only [calculateMatchPercentage]
  apply clampScore_le_of _ (by norm_num)
  apply le_trans (yearsStage_le _ _ _)
  apply le_trans (roleFocusStage_le _ _ _)
  exact missingStage_le_45 h _

theorem missing_required_caps_score_at_45_witness :
    computeMissingRequiredSkills
        (extractJdConstraints (lit ("must have react"))).requiredSkills
        { skills := [lit ("Java")] } ≠ [] ∧
    calculateMatchPercentage (lit ("must have react")) { skills := [lit ("Java")] } ≤ 45 :=
  ⟨by decide, missing_required_caps_score_at_45 _ _ (by decide)⟩

/-! ### Claim C5 -/

/-- C5: for every job description and every candidate record the returned
score lies in the closed interval `[0, 100]` (it is an integer by type). -/
theorem match_percentage_bounds (jd : Str) (c : Candidate) :
    0 ≤ calculateMatchPercentage jd c ∧ calculateMatchPercentage jd c ≤ 100 := by
  constructor
  · simp only [calculateMatchPercentage]
    exact clampScore_nonneg _
  · simp only [calculateMatchPercentage]
    exact clampScore_le_100 _

/-! ### Claim C7 -/

/-- C7: when the extracted `roleKeywords` are non-empty and the candidate
meets none of them, the score never exceeds 50. -/
theorem unmet_role_focus_caps_score_at_50 (jd : Str) (c : Candidate)
    (h1 : (extractJdConstraints jd).roleKeywords ≠ [])
    (h2 : roleFocusMet (extractJdConstraints jd).roleKeywords (lowerStr c.last_role)
      (candSkillsSetOf c) = false) :
    calculateMatchPercentage jd c ≤ 50 := by
  simp only [calculateMatchPercentage]
  apply clampScore_le_of _ (by norm_num)
  apply le_trans (yearsStage_le _ _ _)
  rw [h2]
  exact roleFocusStage_false_le_50 h1 _

theorem unmet_role_focus_caps_score_at_50_witness :
    (extractJdConstraints backendOnlyJd).roleKeywords ≠ [] ∧
    roleFocusMet (extractJdConstraints backendOnlyJd).roleKeywords
      (lowerStr frontendOnlyCand.last_role) (candSkillsSetOf frontendOnlyCand) = false ∧
    calculateMatchPercentage backendOnlyJd frontendOnlyCand ≤ 50 :=
  ⟨by decide, by decide, unmet_role_focus_caps_score_at_50 _ _ (by decide) (by decide)⟩

/-! ### Claim C10 -/

/-- C10: the explanation string does not depend on the score argument. -/
theorem explanation_independent_of_score (c : Candidate) (p1 p2 : ℤ) (jd : Str) :
    generateExplanation c p1 jd = generateExplanation c p2 jd := rfl

/-! ### Claim C4 -/

/-- C4 counterexample: the Scenario A score is below the claimed 78, because
the JD text carries no frontend/front-end/ui signal, so the +6 frontend bonus
is never awarded. -/
theorem scenario_a_score_below_78 :
    ¬ 78 ≤ calculateMatchPercentage scenarioAJd scenarioACand := by decide

/-- C4 amended: Scenario A scores exactly 72 = 40 base + 10 years + 16 skill
overlap + 6 role word, with no cap applied (no required skill is missing). -/
theorem scenario_a_score_is_72 :
    calculateMatchPercentage scenarioAJd scenarioACand = 72 ∧
    computeMissingRequiredSkills (extractJdConstraints scenarioAJd).requiredSkills
      scenarioACand = [] := by decide

/-! ### Claim C3 -/

/-- C3 counterexample: the Scenario C job description has no required-block
line, yet the fallback whole-text scan also returns "go" (a substring of
"django"), which is outside the claimed set {python, django, postgresql}. -/
theorem fallback_scan_includes_substring_matches :
    ((splitOnNewlineRuns (normalizeChars (lowerStr scenarioCJd))).filter testRequiredLine) = [] ∧
    lit ("go") ∈ (extractJdConstraints scenarioCJd).requiredSkills ∧
    ¬ lit ("go") ∈ [lit ("python"), lit ("django"), lit ("postgresql")] := by decide

/-- C3 amended: the fallback scan uses substring containment, so the JD
"Python, Django, PostgreSQL" yields required skills
{python, django, postgres, postgresql, go} — "postgres" matches inside
"postgresql" and "go" matches inside "django". -/
theorem fallback_scan_required_skills :
    (extractJdConstraints scenarioCJd).requiredSkills =
      [lit ("python"), lit ("django"), lit ("postgres"), lit ("postgresql"), lit ("go")] := by
  decide

/-! ### Claim C2 -/

/-- C2 counterexample: a candidate skill "node" does not satisfy the
requirement "node.js" (and "postgres" does not satisfy "postgresql"):
the candidate side of `computeMissingRequiredSkills` is never folded. -/
theorem candidate_node_does_not_satisfy_nodejs :
    computeMissingRequiredSkills [lit ("node.js")] { skills := [lit ("node")] }
      = [lit ("node.js")] ∧
    computeMissingRequiredSkills [lit ("postgresql")] { skills := [lit ("postgres")] }
      = [lit ("postgresql")] := by decide

/-- C2 amended: synonym folding is applied to the requirement token only —
a candidate whose normalized skills contain "node.js" satisfies the
requirements "node" and "node.js", and one containing "postgresql" satisfies
"postgres" and "postgresql". -/
theorem folding_applies_to_requirement_side (reqs : List Str) (c : Candidate)
    (h1 : (c.skills.map normSkill).contains (lit ("node.js")) = true)
    (h2 : (c.skills.map normSkill).contains (lit ("postgresql")) = true) :
    lit ("node") ∉ computeMissingRequiredSkills reqs c ∧
    lit ("node.js") ∉ computeMissingRequiredSkills reqs c ∧
    lit ("postgres") ∉ computeMissingRequiredSkills reqs c ∧
    lit ("postgresql") ∉ computeMissingRequiredSkills reqs c := by
  have key : ∀ r t : Str, foldSyn (normSkill r) = t →
      (c.skills.map normSkill).contains t = true →
      r ∉ computeMissingRequiredSkills reqs c := by
    intro r t hf hc hmem
    simp only [computeMissingRequiredSkills, List.mem_filter] at hmem
    obtain ⟨-, h3⟩ := hmem
    rw [hf, hc] at h3
    exact absurd h3 (by decide)
  exact ⟨key _ _ (by decide) h1, key _ _ (by decide) h1,
    key _ _ (by decide) h2, key _ _ (by decide) h2⟩

theorem folding_applies_to_requirement_side_witness :
    (bothCanonicalCand.skills.map normSkill).contains (lit ("node.js")) = true ∧
    (bothCanonicalCand.skills.map normSkill).contains (lit ("postgresql")) = true ∧
    (lit ("node") ∉ computeMissingRequiredSkills nodePostgresReqs bothCanonicalCand ∧
     lit ("node.js") ∉ computeMissingRequiredSkills nodePostgresReqs bothCanonicalCand ∧
     lit ("postgres") ∉ computeMissingRequiredSkills nodePostgresReqs bothCanonicalCand ∧
     lit ("postgresql") ∉ computeMissingRequiredSkills nodePostgresReqs bothCanonicalCand) :=
  ⟨by decide, by decide,
    folding_applies_to_requirement_side nodePostgresReqs bothCanonicalCand
      (by decide) (by decide)⟩

/-! ### Claim C6 -/

/-- C6: the matching entry point fails exactly when the job description is
empty or whitespace-only, or the candidate list is empty; for every
non-empty job description and candidate list it returns the result list
normally (the deterministic path raises no other error). -/
theorem run_error_iff (jd : Str) (cands : List Candidate) :
    ((∃ e, run jd cands = Except.error e) ↔ (trimStr jd = [] ∨ cands = [])) ∧
    (trimStr jd ≠ [] → cands ≠ [] →
      run jd cands = Except.ok (matchAllCore jd cands)) := by
  constructor
  · unfold run
    by_cases h1 : trimStr jd = []
    · simp [h1]
    · by_cases h2 : cands = [] <;> simp [h1, h2]
  · intro h1 h2
    unfold run
    rw [if_neg h1, if_neg h2]

theorem run_error_iff_witness :
    run scenarioAJd [scenarioACand] =
      Except.ok (matchAllCore scenarioAJd [scenarioACand]) :=
  (run_error_iff scenarioAJd [scenarioACand]).2 (by decide) (by decide)

/-! ### Sorting lemmas for Claim C8 -/

lemma mem_insertDescMR {x a : MatchResult} {l : List MatchResult} :
    a ∈ insertDescMR x l ↔ a = x ∨ a ∈ l := by
  induction l with
  | nil => simp [insertDescMR]
  | cons y ys ih =>
    unfold insertDescMR
    split
    · simp [List.mem_cons]
    · rw [List.mem_cons, ih, List.mem_cons]
      tauto

lemma sorted_insertDescMR {l : List MatchResult} (x : MatchResult)
    (h : List.Sorted scoreGE l) : List.Sorted scoreGE (insertDescMR x l) := by
  induction l with
  | nil => simp [insertDescMR, scoreGE]
  | cons y ys ih =>
    rw [List.sorted_cons] at h
    obtain ⟨hy, hys⟩ := h
    unfold insertDescMR
    split
    · rename_i hlt
      rw [List.sorted_cons]
      refine ⟨?_, List.sorted_cons.mpr ⟨hy, hys⟩⟩
      intro b hb
      rcases List.mem_cons.mp hb with hb | hb
      · subst hb
        exact le_of_lt hlt
      · exact le_trans (hy b hb) (le_of_lt hlt)
    · rename_i hge
      rw [List.sorted_cons]
      refine ⟨?_, ih hys⟩
      intro b hb
      rcases mem_insertDescMR.mp hb with hb | hb
      · subst hb
        exact not_lt.mp hge
      · exact hy b hb

lemma sorted_sortDescMR (l : List MatchResult) : List.Sorted scoreGE (sortDescMR l) := by
  have key : ∀ (l acc : List MatchResult), List.Sorted scoreGE acc →
      List.Sorted scoreGE (l.foldl (fun a x => insertDescMR x a) acc) := by
    intro l
    induction l with
    | nil => intro acc h; exact h
    | cons x xs ih => intro acc h; exact ih _ (sorted_insertDescMR x h)
  exact key l [] (by simp)

lemma filter_insertDescMR (x : MatchResult) (p : ℤ) :
    ∀ {l : List MatchResult}, List.Sorted scoreGE l →
      (insertDescMR x l).filter (scoreIs p) =
        l.filter (scoreIs p) ++ [x].filter (scoreIs p) := by
  intro l
  induction l with
  | nil => intro _; simp [insertDescMR]
  | cons y ys ih =>
    intro h
    rw [List.sorted_cons] at h
    obtain ⟨hy, hys⟩ := h
    unfold insertDescMR
    split
    · rename_i hlt
      by_cases hx : scoreIs p x = true
      · have hxeq : x.matchPercentage = p := by simpa [scoreIs] using hx
        have hnil : (y :: ys).filter (scoreIs p) = [] := by
          rw [List.filter_eq_nil_iff]
          intro b hb
          have hblt : b.matchPercentage < x.matchPercentage := by
            rcases List.mem_cons.mp hb with hb | hb
            · subst hb; exact hlt
            · exact lt_of_le_of_lt (hy b hb) hlt
          simp only [scoreIs, beq_iff_eq]
          omega
        simp [List.filter_cons, hx, hnil]
      · simp [List.filter_cons, hx]
    · rename_i hge
      have hrec := ih hys
      by_cases hyp : scoreIs p y = true <;> simp [List.filter_cons, hyp, hrec]

lemma filter_sortDescMR (p : ℤ) (l : List MatchResult) :
    (sortDescMR l).filter (scoreIs p) = l.filter (scoreIs p) := by
  have key : ∀ (l acc : List MatchResult), List.Sorted scoreGE acc →
      ((l.foldl (fun a x => insertDescMR x a) acc).filter (scoreIs p) =
        acc.filter (scoreIs p) ++ l.filter (scoreIs p)) := by
    intro l
    induction l with
    | nil => intro acc _; simp
    | cons x xs ih =>
      intro acc h
      rw [List.foldl_cons, ih _ (sorted_insertDescMR x h), filter_insertDescMR x p h]
      by_cases hx : scoreIs p x = true <;> simp [List.filter_cons, hx]
  have h0 := key l [] (by simp)
  simpa [sortDescMR] using h0

/-! ### Claim C8 -/

/-- C8: the deterministic matching path returns results sorted by descending
`matchPercentage`, and the sort is stable: for every score value, the
candidate indices at that score appear in the same order as in the in-input-
order scored list, whose indices are exactly `0, 1, …` in input order. -/
theorem results_sorted_and_stable (jd : Str) (cands : List Candidate) :
    List.Sorted scoreGE (matchAllCore jd cands) ∧
    (∀ p : ℤ, ((matchAllCore jd cands).filter (scoreIs p)).map MatchResult.candidateIndex =
      ((scoreAll jd cands).filter (scoreIs p)).map MatchResult.candidateIndex) ∧
    (scoreAll jd cands).map MatchResult.candidateIndex = List.range cands.length := by
  refine ⟨?_, ?_, ?_⟩
  · unfold matchAllCore
    exact List.Pairwise.map _ (fun a b hab => hab) (sorted_sortDescMR _)
  · intro p
    unfold matchAllCore
    rw [List.filter_map]
    have hcomp : (scoreIs p ∘ regenerate jd cands) = scoreIs p := rfl
    rw [hcomp, filter_sortDescMR, List.map_map]
    rfl
  · unfold scoreAll
    rw [List.map_map]
    have hfst : (MatchResult.candidateIndex ∘ fun q : Nat × Candidate =>
        ({ candidateIndex := q.1
           matchPercentage := calculateMatchPercentage jd q.2
           explanation := generateExplanation q.2 0 jd } : MatchResult)) = Prod.fst := rfl
    rw [hfst, List.enum_map_fst]

/-! ### Substring and join lemmas for Claim C9 -/

lemma nil_prefixOf (l : Str) : ([] : Str).isPrefixOf l = true := by
  cases l <;> rfl

lemma joinSep_single (sep x : Str) : joinSep sep [x] = x := rfl

lemma joinSep_cons_cons (sep x y : Str) (t : List Str) :
    joinSep sep (x :: y :: t) = x ++ (sep ++ joinSep sep (y :: t)) := by
  simp only [joinSep]
  rw [List.append_assoc]

lemma prefixOf_append_self (p b : Str) : p.isPrefixOf (p ++ b) = true := by
  induction p with
  | nil => exact nil_prefixOf _
  | cons c cs ih => simp [List.isPrefixOf, ih]

lemma prefixOf_extend {p s : Str} (b : Str) (h : p.isPrefixOf s = true) :
    p.isPrefixOf (s ++ b) = true := by
  induction p generalizing s with
  | nil => exact nil_prefixOf _
  | cons c cs ih =>
    cases s with
    | nil => exact absurd h (by simp [List.isPrefixOf])
    | cons d ds =>
      simp only [List.isPrefixOf, Bool.and_eq_true] at h
      simp only [List.cons_append, List.isPrefixOf, Bool.and_eq_true]
      exact ⟨h.1, ih h.2⟩

lemma containsSubstr_nil_pat (s : Str) : containsSubstr s [] = true := by
  cases s <;> simp [containsSubstr, List.isPrefixOf]

lemma containsSubstr_of_prefixOf {s p : Str} (h : p.isPrefixOf s = true) :
    containsSubstr s p = true := by
  cases s with
  | nil => simpa [containsSubstr] using h
  | cons c rest => simp [containsSubstr, h]

lemma containsSubstr_append_right {b p : Str} (a : Str) (h : containsSubstr b p = true) :
    containsSubstr (a ++ b) p = true := by
  induction a with
  | nil => exact h
  | cons c as ih => simp [containsSubstr, ih]

lemma containsSubstr_append_left {a p : Str} (b : Str) (h : containsSubstr a p = true) :
    containsSubstr (a ++ b) p = true := by
  induction a with
  | nil =>
    have hp : p = [] := by
      cases p with
      | nil => rfl
      | cons x xs =>
        simp [containsSubstr, List.isPrefixOf] at h
    subst hp
    exact containsSubstr_nil_pat _
  | cons c as ih =>
    rw [containsSubstr, Bool.or_eq_true] at h
    rcases h with hpre | hrest
    · exact containsSubstr_of_prefixOf (prefixOf_extend b hpre)
    · have := ih hrest
      simp [containsSubstr, this]

lemma containsSubstr_self_append (p b : Str) : containsSubstr (p ++ b) p = true :=
  containsSubstr_of_prefixOf (prefixOf_append_self p b)

lemma containsSubstr_refl (p : Str) : containsSubstr p p = true := by
  have h := containsSubstr_self_append p []
  rw [List.append_nil] at h
  exact h

lemma joinSep_contains_sep (sep x y : Str) (t : List Str) :
    containsSubstr (joinSep sep (x :: y :: t)) sep = true := by
  rw [joinSep_cons_cons]
  exact containsSubstr_append_right x (containsSubstr_self_append sep _)

lemma joinSep_contains_of_mem (sep pat : Str) {x : Str}
    (h : containsSubstr x pat = true) :
    ∀ {l : List Str}, x ∈ l → containsSubstr (joinSep sep l) pat = true := by
  intro l
  induction l with
  | nil => intro hx; cases hx
  | cons z zs ih =>
    intro hx
    cases zs with
    | nil =>
      rcases List.mem_cons.mp hx with hz | hz
      · subst hz
        rw [joinSep_single]
        exact h
      · cases hz
    | cons w ws =>
      rcases List.mem_cons.mp hx with hz | hz
      · subst hz
        rw [joinSep_cons_cons]
        exact containsSubstr_append_left _ h
      · rw [joinSep_cons_cons]
        exact containsSubstr_append_right z (containsSubstr_append_right sep (ih hz))

lemma cons_two_shape {α : Type} (a e : α) (B D E : List α) :
    ∃ x y t, ((([a] ++ B) ++ [e]) ++ D) ++ E = x :: y :: t := by
  cases B with
  | nil => exact ⟨a, e, D ++ E, by simp⟩
  | cons b bs => exact ⟨a, b, (((bs ++ [e]) ++ D) ++ E), by simp⟩

/-! ### Claim C9 -/

/-- C9 counterexample: with two usable parts the explanation joins them with
the separator " • ", so the generated sentence is not bullet-free. -/
theorem explanation_contains_bullet :
    containsSubstr (generateExplanation bulletCand 0 (lit (""))) (lit (" • ")) = true ∧
    generateExplanation bulletCand 0 (lit (""))
      = lit ("Role: Dev • Experience: 2 years") := by decide

/-- C9 amended: the explanation lists the non-empty parts in source order
joined by the " • " separator (hence not bullet-free once two parts are
present); when more than three required skills are missing an ellipsis
follows the first three; the "appears relevant" fallback is produced when
the candidate has no usable signal and no required skill is missing. -/
theorem explanation_structure (c : Candidate) (p : ℤ) (jd : Str) :
    (c.last_role = [] → c.skills = [] → c.total_experience = [] → c.education = [] →
      computeMissingRequiredSkills (extractJdConstraints jd).requiredSkills c = [] →
      generateExplanation c p jd =
        (if c.name = [] then lit ("Candidate") else c.name) ++ lit (" appears relevant.")) ∧
    (c.last_role ≠ [] → c.total_experience ≠ [] →
      containsSubstr (generateExplanation c p jd) (lit (" • ")) = true) ∧
    (3 < (computeMissingRequiredSkills (extractJdConstraints jd).requiredSkills c).length →
      containsSubstr (generateExplanation c p jd) (lit ("…")) = true) := by
  refine ⟨?_, ?_, ?_⟩
  · intro h1 h2 h3 h4 h5
    simp [generateExplanation, explanationPieces, h1, h2, h3, h4, h5, joinSep]
  · intro h1 h3
    have hshape : ∃ x y t, explanationPieces c jd = x :: y :: t := by
      simp only [explanationPieces]
      rw [if_neg h1, if_neg h3]
      exact cons_two_shape _ _ _ _ _
    obtain ⟨x, y, t, hp⟩ := hshape
    simp only [generateExplanation]
    rw [hp, if_neg (by simp)]
    exact joinSep_contains_sep _ x y t
  · intro hlen
    have hm : computeMissingRequiredSkills (extractJdConstraints jd).requiredSkills c ≠ [] := by
      intro he
      rw [he] at hlen
      simp at hlen
    have hmem : (lit ("Missing required: ") ++
        joinSep (lit (", "))
          ((computeMissingRequiredSkills (extractJdConstraints jd).requiredSkills c).take 3) ++
        lit ("…")) ∈ explanationPieces c jd := by
      simp only [explanationPieces]
      rw [if_neg hm, if_pos hlen]
      simp
    have hne : explanationPieces c jd ≠ [] := by
      intro he
      rw [he] at hmem
      cases hmem
    simp only [generateExplanation]
    rw [if_neg hne]
    refine joinSep_contains_of_mem _ _ ?_ hmem
    exact containsSubstr_append_right _ (containsSubstr_refl _)

theorem explanation_structure_witness :
    (generateExplanation defaultCandidate 0 (lit ("")) =
      (if defaultCandidate.name = [] then lit ("Candidate") else defaultCandidate.name) ++
        lit (" appears relevant.")) ∧
    containsSubstr (generateExplanation bulletCand 0 (lit (""))) (lit (" • ")) = true ∧
    containsSubstr (generateExplanation defaultCandidate 0 manyTechJd) (lit ("…")) = true :=
  ⟨(explanation_structure defaultCandidate 0 (lit (""))).1 rfl rfl rfl rfl (by decide),
   (explanation_structure bulletCand 0 (lit (""))).2.1 (by decide) (by decide),
   (explanation_structure defaultCandidate 0 manyTechJd).2.2 (by decide)⟩

end RoleMatcher
